import Mathlib

/-!
Verification of the YaP-Mic-Pass-Ult audio transport core against its
natural-language specification.

Each definition below is a shallow embedding of a function of
`src/server/server.py` or `src/client/client.py`.  Byte strings are modelled
as `List Nat` (one entry per byte, head transmitted first) and decoded Python
strings as `List Char`.  All definitions are executable; stateful loops are
modelled by explicit recursion over the byte stream or event list they
consume.
-/

namespace YaP

/-! ## JitterBuffer
Embeds the bounded `queue.Queue` handling of `stream_audio_from_client`
(server.py lines 655-682) together with the quality-dependent sizing done in
`receive_audio_config` (server.py lines 456-465).  In the claims' setting there
is a single producer and no concurrent consumer, so the queue operations are
deterministic; the queue is a `List` whose head is the oldest frame. -/

/-- Queue capacity chosen in `receive_audio_config` (server.py 456-465):
`maxsize=3` for `low_latency`, `maxsize=8` for `high_quality`, `maxsize=5`
otherwise. -/
def jbCapacity (quality : List Char) : Nat :=
  if quality = "low_latency".data then 3
  else if quality = "high_quality".data then 8
  else 5

/-- `min_buffer` computed in the `queue.Full` handler (server.py line 663):
2 for `low_latency`, 3 otherwise. -/
def jbMinBuffer (quality : List Char) : Nat :=
  if quality = "low_latency".data then 2 else 3

/-- One `audio_queue.put_nowait(data)` together with its `queue.Full` handler
(server.py lines 655-682), with no concurrent consumer.  `q.drop maxDrop` is
the `while dropped < max_drop` loop of `get_nowait` calls (it stops early on an
empty queue, which `List.drop` mirrors); the final `match` is the trailing
`get_nowait(); put_nowait(data)` retry, whose `queue.Empty` branch (`pass`)
loses the new frame. -/
def pushFrame (cap minBuf : Nat) (q : List Nat) (f : Nat) : List Nat :=
  if q.length < cap then q ++ [f]
  else
    let maxDrop := max 1 (q.length - minBuf)
    let q1 := q.drop maxDrop
    if q1.length < cap then q1 ++ [f]
    else
      match q1 with
      | [] => []
      | _ :: q2 => q2 ++ [f]

/-- Pushing frames `0, 1, …, n-1` (in that order) into an initially empty
buffer. -/
def pushSeq (cap minBuf : Nat) : Nat → List Nat
  | 0 => []
  | n + 1 => pushFrame cap minBuf (pushSeq cap minBuf n) n

theorem pushSeq_succ (cap minBuf n : Nat) :
    pushSeq cap minBuf (n + 1) = pushFrame cap minBuf (pushSeq cap minBuf n) n := rfl

theorem pushFrame_of_lt {cap minBuf : Nat} {q : List Nat} {f : Nat}
    (h : q.length < cap) : pushFrame cap minBuf q f = q ++ [f] := by
  simp [pushFrame, h]

theorem pushFrame_of_full {cap minBuf : Nat} {q : List Nat} {f : Nat}
    (hq : q.length = cap) (h1 : 1 ≤ minBuf) (h2 : minBuf < cap) :
    pushFrame cap minBuf q f = q.drop (cap - minBuf) ++ [f] := by
  have hlt : ¬ q.length < cap := by omega
  have hnm : max 1 (q.length - minBuf) = cap - minBuf := by omega
  have hq1 : (q.drop (cap - minBuf)).length < cap := by
    simp only [List.length_drop]
    omega
  simp only [pushFrame, hlt, if_false, hnm, hq1, if_true]

theorem pushFrame_length {cap minBuf : Nat} {q : List Nat} {f : Nat}
    (hle : q.length ≤ cap) (h1 : 1 ≤ minBuf) (h2 : minBuf < cap) :
    (pushFrame cap minBuf q f).length =
      if q.length < cap then q.length + 1 else minBuf + 1 := by
  by_cases h : q.length < cap
  · rw [pushFrame_of_lt h]
    simp [h]
  · have hq : q.length = cap := by omega
    rw [pushFrame_of_full hq h1 h2, if_neg h]
    simp only [List.length_append, List.length_drop, hq, List.length_cons,
      List.length_nil]
    omega

theorem pushFrame_getLast {cap minBuf : Nat} {q : List Nat} {f : Nat}
    (hle : q.length ≤ cap) (h1 : 1 ≤ minBuf) (h2 : minBuf < cap) :
    (pushFrame cap minBuf q f).getLast? = some f := by
  by_cases h : q.length < cap
  · rw [pushFrame_of_lt h, List.getLast?_concat]
  · rw [pushFrame_of_full (by omega) h1 h2, List.getLast?_concat]

theorem pushSeq_length_le {cap minBuf : Nat} (h1 : 1 ≤ minBuf) (h2 : minBuf < cap) :
    ∀ n, (pushSeq cap minBuf n).length ≤ cap := by
  intro n
  induction n with
  | zero => simp [pushSeq]
  | succ m ih =>
    rw [pushSeq_succ, pushFrame_length ih h1 h2]
    split <;> omega

theorem pushSeq_length_of_le {cap minBuf : Nat} (h1 : 1 ≤ minBuf) (h2 : minBuf < cap) :
    ∀ n, n ≤ cap → (pushSeq cap minBuf n).length = n := by
  intro n
  induction n with
  | zero => simp [pushSeq]
  | succ m ih =>
    intro h
    rw [pushSeq_succ, pushFrame_length (by rw [ih (by omega)]; omega) h1 h2,
      ih (by omega)]
    have : m < cap := by omega
    simp [this]

/-- Length of the buffer after the first overflow and beyond: after pushing
`cap + 1 + k` frames the buffer holds `minBuf + 1 + (k % (cap - minBuf))`
frames. -/
theorem pushSeq_length_overflow {cap minBuf : Nat} (h1 : 1 ≤ minBuf) (h2 : minBuf < cap) :
    ∀ k, (pushSeq cap minBuf (cap + 1 + k)).length
        = minBuf + 1 + (k % (cap - minBuf)) := by
  intro k
  induction k with
  | zero =>
    have hc : (pushSeq cap minBuf cap).length = cap :=
      pushSeq_length_of_le h1 h2 cap le_rfl
    rw [show cap + 1 + 0 = cap + 1 by omega, pushSeq_succ,
      pushFrame_length (le_of_eq hc) h1 h2, hc]
    simp
  | succ k ih =>
    have hle : (pushSeq cap minBuf (cap + 1 + k)).length ≤ cap :=
      pushSeq_length_le h1 h2 _
    rw [show cap + 1 + (k + 1) = (cap + 1 + k) + 1 by omega, pushSeq_succ,
      pushFrame_length hle h1 h2, ih]
    set m := cap - minBuf with hm
    have hm1 : 1 ≤ m := by omega
    have hmod : k % m < m := Nat.mod_lt _ (by omega)
    rcases Nat.lt_or_ge (k % m + 1) m with h | h
    · have hlt : minBuf + 1 + k % m < cap := by omega
      have hsucc : (k + 1) % m = k % m + 1 := by
        conv_lhs => rw [Nat.add_mod]
        rw [Nat.mod_eq_of_lt (show 1 < m by omega),
          Nat.mod_eq_of_lt (show k % m + 1 < m from h)]
      rw [if_pos hlt, hsucc]
      omega
    · have heq : k % m + 1 = m := by omega
      have hge : ¬ minBuf + 1 + k % m < cap := by omega
      have hzero : (k + 1) % m = 0 := by
        rcases Nat.eq_or_lt_of_le hm1 with h1m | h1m
        · rw [← h1m, Nat.mod_one]
        · conv_lhs => rw [Nat.add_mod]
          rw [Nat.mod_eq_of_lt (show 1 < m from h1m), heq]
          simp
      rw [if_neg hge, hzero]

/-- Claim C1 (counterexample): with `balanced` quality (capacity 5,
minBuffer 3), pushing `capacity + 2 = 7` frames into an empty buffer leaves
5 frames, not the claimed `min(capacity, minBuffer + 1) = 4`. -/
theorem c1_counterexample :
    (pushSeq (jbCapacity "balanced".data) (jbMinBuffer "balanced".data)
        (jbCapacity "balanced".data + 2)).length ≠
      min (jbCapacity "balanced".data) (jbMinBuffer "balanced".data + 1) := by
  decide

/-- Claim C1 (amended): for every quality level, pushing `capacity + k` frames
(`k ≥ 1`) into an empty JitterBuffer with no concurrent pops leaves exactly
`minBuffer + 1 + ((k - 1) % (capacity - minBuffer))` frames — which equals
`min(capacity, minBuffer + 1)` exactly when `k = 1` or the quality is
`low_latency` — and the most recently pushed frame is the newest buffer entry
after every push. -/
theorem c1_amended (quality : List Char) (k n : Nat) (hk : 1 ≤ k) (hn : 1 ≤ n) :
    (pushSeq (jbCapacity quality) (jbMinBuffer quality)
        (jbCapacity quality + k)).length
      = jbMinBuffer quality + 1 +
          ((k - 1) % (jbCapacity quality - jbMinBuffer quality))
    ∧ (pushSeq (jbCapacity quality) (jbMinBuffer quality) n).getLast?
        = some (n - 1) := by
  have hmb : 1 ≤ jbMinBuffer quality ∧ jbMinBuffer quality < jbCapacity quality := by
    unfold jbCapacity jbMinBuffer
    split <;> [skip; split] <;> simp
  constructor
  · rw [show jbCapacity quality + k = jbCapacity quality + 1 + (k - 1) by omega]
    exact pushSeq_length_overflow hmb.1 hmb.2 (k - 1)
  · rw [show n = (n - 1) + 1 by omega, pushSeq_succ]
    have hle := pushSeq_length_le hmb.1 hmb.2 (n - 1)
    rw [pushFrame_getLast hle hmb.1 hmb.2]
    simp

theorem c1_amended_witness :
    (pushSeq (jbCapacity "balanced".data) (jbMinBuffer "balanced".data)
        (jbCapacity "balanced".data + 2)).length
      = jbMinBuffer "balanced".data + 1 +
          ((2 - 1) % (jbCapacity "balanced".data - jbMinBuffer "balanced".data))
    ∧ (pushSeq (jbCapacity "balanced".data) (jbMinBuffer "balanced".data) 7).getLast?
        = some 6 :=
  c1_amended "balanced".data 2 7 (by decide) (by decide)

/-! ## Sender gain application
Embeds the volume block of `stream_audio` (client.py lines 257-269).  Frames
are byte strings of interleaved signed 16-bit little-endian samples; the gain
is a Python float, modelled as a rational (exact for the values the claims
evaluate). -/

/-- Decode one little-endian byte pair as a signed 16-bit sample, as
`np.frombuffer(data, dtype=np.int16)` and `struct.unpack('<…h', data)` do. -/
def int16OfBytes (lo hi : Nat) : Int :=
  let u := lo + 256 * hi
  if u < 32768 then (u : Int) else (u : Int) - 65536

/-- Encode a signed 16-bit value as its little-endian byte pair
(`tobytes` / `struct.pack('<…h', …)`); out-of-range values take their
two's-complement byte pattern. -/
def bytesOfInt16 (s : Int) : List Nat :=
  let u := (s % 65536).toNat
  [u % 256, u / 256]

/-- Split a byte string into its 16-bit samples (an odd trailing byte cannot
occur for the even-sized frames the protocol produces). -/
def toSamples : List Nat → List Int
  | lo :: hi :: rest => int16OfBytes lo hi :: toSamples rest
  | _ => []

/-- Re-encode samples into a byte string. -/
def fromSamples (ss : List Int) : List Nat :=
  (ss.map bytesOfInt16).flatten

/-- Truncation toward zero, as both the C-style float-to-int cast in numpy's
`astype(np.int16)` and Python's `int(…)` perform on the fractional part:
the integer part of `|x|`, with the sign of `x`. -/
def truncTowardZero (x : ℚ) : Int :=
  if 0 ≤ x.num then (x.num.toNat / x.den : Nat)
  else - (((- x.num).toNat / x.den : Nat) : Int)

/-- numpy's `astype(np.int16)` applied to an out-of-range integral value:
two's-complement truncation to 16 bits. -/
def int16Cast (z : Int) : Int := (z + 32768) % 65536 - 32768

/-- `np.clip(…, -32768, 32767)` / `max(-32768, min(32767, …))` on integers. -/
def clamp16 (z : Int) : Int := max (-32768) (min 32767 z)

/-- Per-sample numpy fast path (client.py lines 260-264):
`(audio_array.astype(np.float32) * volume).astype(np.int16)` followed by
`np.clip(audio_array, -32768, 32767, out=audio_array)` — the cast to int16
happens before the clip, so the clip sees already-wrapped 16-bit values. -/
def applyGainNumpySample (volume : ℚ) (s : Int) : Int :=
  clamp16 (int16Cast (truncTowardZero ((s : ℚ) * volume)))

/-- Per-sample struct fallback path (client.py lines 266-269):
`int(max(-32768, min(32767, s * self.volume)))`. -/
def applyGainStructSample (volume : ℚ) (s : Int) : Int :=
  truncTowardZero (max (-32768 : ℚ) (min 32767 ((s : ℚ) * volume)))

/-- The gain block of `stream_audio` (client.py lines 257-269): identity when
`volume == 1.0`; otherwise the numpy path when numpy imported successfully,
else the struct fallback. -/
def applyGain (hasNumpy : Bool) (volume : ℚ) (data : List Nat) : List Nat :=
  if volume = 1 then data
  else if hasNumpy then
    fromSamples ((toSamples data).map (applyGainNumpySample volume))
  else
    fromSamples ((toSamples data).map (applyGainStructSample volume))

theorem toSamples_replicate_pair (n : Nat) (a b : Nat) :
    toSamples (List.replicate n [a, b]).flatten
      = List.replicate n (int16OfBytes a b) := by
  induction n with
  | zero => rfl
  | succ m ih =>
    rw [List.replicate_succ, List.flatten_cons, List.replicate_succ]
    show int16OfBytes a b :: toSamples (List.replicate m [a, b]).flatten = _
    rw [ih]

theorem applyGainNumpySample_twenty_thousand :
    applyGainNumpySample 2 (int16OfBytes 32 78) = -25536 := by
  rw [show int16OfBytes 32 78 = 20000 from by decide]
  unfold applyGainNumpySample
  rw [show ((20000 : Int) : ℚ) * 2 = (40000 : ℚ) by norm_num,
    show truncTowardZero (40000 : ℚ) = 40000 from by simp [truncTowardZero]]
  decide

theorem applyGainStructSample_twenty_thousand :
    applyGainStructSample 2 (int16OfBytes 32 78) = 32767 := by
  rw [show int16OfBytes 32 78 = 20000 from by decide]
  unfold applyGainStructSample
  rw [show max (-32768 : ℚ) (min 32767 (((20000 : Int) : ℚ) * 2)) = (32767 : ℚ) by
    rw [show ((20000 : Int) : ℚ) * 2 = (40000 : ℚ) by norm_num]; norm_num]
  simp [truncTowardZero]

/-- Claim C2 (code bug): on the numpy fast path, gain 2.0 applied to a frame
whose 16-bit samples all equal 20000 (bytes `20 4e` per sample) produces
samples equal to -25536 (bytes `40 9c`) — the product 40000 wraps in the
`astype(np.int16)` cast before `np.clip` runs, so the clip is a no-op.  The
struct fallback clamps first and yields the claimed 32767 (bytes `ff 7f`). -/
theorem c2_numpy_gain_wraps :
    applyGain true 2 (List.replicate 128 [32, 78]).flatten
        = (List.replicate 128 [64, 156]).flatten
    ∧ applyGain false 2 (List.replicate 128 [32, 78]).flatten
        = (List.replicate 128 [255, 127]).flatten
    ∧ int16OfBytes 32 78 = 20000
    ∧ int16OfBytes 64 156 = -25536
    ∧ int16OfBytes 255 127 = 32767 := by
  refine ⟨?_, ?_, by decide, by decide, by decide⟩
  · unfold applyGain
    rw [if_neg (by norm_num), if_pos rfl, toSamples_replicate_pair,
      List.map_replicate, applyGainNumpySample_twenty_thousand]
    unfold fromSamples
    rw [List.map_replicate, show bytesOfInt16 (-25536) = [64, 156] from by decide]
  · unfold applyGain
    rw [if_neg (by norm_num), if_neg (by decide), toSamples_replicate_pair,
      List.map_replicate, applyGainStructSample_twenty_thousand]
    unfold fromSamples
    rw [List.map_replicate, show bytesOfInt16 32767 = [255, 127] from by decide]

/-! ## SinkWriter
Embeds the pipe-writer loop of `audio_writer_thread` (server.py lines
514-545).  Each loop iteration either pops a frame from the JitterBuffer or
times out (`queue.Empty`); the writer's observable behaviour is the sequence
of full-frame pipe writes and the write counts at which it flushed. -/

/-- Outcome of one `audio_queue.get(timeout=…)` call. -/
inductive PopResult where
  | frame (f : List Nat)
  | timeout
deriving DecidableEq

structure WriterState where
  /-- `self.last_audio_data` (initially `None`). -/
  lastAudioData : Option (List Nat)
  /-- `self.write_count`. -/
  writeCount : Nat
  /-- The frames written to the pipe, oldest first (each write loops on
  partial writes until the whole frame is out, server.py 531-539). -/
  pipeWrites : List (List Nat)
  /-- The values of `write_count` at which `self.pipe_file.flush()` ran. -/
  flushedAt : List Nat
deriving DecidableEq

/-- `flush_interval` (server.py line 543): 3 for `low_latency`, 5 otherwise. -/
def flushInterval (quality : List Char) : Nat :=
  if quality = "low_latency".data then 3 else 5

/-- Writing one complete frame to the pipe and the periodic flush
(server.py lines 529-545). -/
def pipeWrite (quality : List Char) (s : WriterState) (f : List Nat) : WriterState :=
  { s with
    writeCount := s.writeCount + 1
    pipeWrites := s.pipeWrites ++ [f]
    flushedAt :=
      if (s.writeCount + 1) % flushInterval quality = 0 then
        s.flushedAt ++ [s.writeCount + 1]
      else s.flushedAt }

/-- Python truthiness of `self.last_audio_data`: `None` and `b''` are falsy. -/
def pyTruthy : Option (List Nat) → Bool
  | none => false
  | some [] => false
  | some (_ :: _) => true

/-- One iteration of the writer loop (server.py lines 514-545): a successful
pop stores the frame in `last_audio_data` and writes it; on `queue.Empty` the
loop re-writes `last_audio_data` when it is truthy and otherwise `continue`s
without writing. -/
def writerStep (quality : List Char) (s : WriterState) (e : PopResult) : WriterState :=
  match e with
  | .frame f => pipeWrite quality { s with lastAudioData := some f } f
  | .timeout =>
    if pyTruthy s.lastAudioData then pipeWrite quality s (s.lastAudioData.getD [])
    else s

def writerInit : WriterState := ⟨none, 0, [], []⟩

/-- The writer loop applied to a whole sequence of pop outcomes. -/
def writerRun (quality : List Char) (evs : List PopResult) : WriterState :=
  evs.foldl (writerStep quality) writerInit

theorem writerRun_append (quality : List Char) (evs evs' : List PopResult) :
    writerRun quality (evs ++ evs')
      = evs'.foldl (writerStep quality) (writerRun quality evs) := by
  unfold writerRun
  exact List.foldl_append _ _ _ _

/-- Frames written and remembered all come from successful pops: if every
popped frame satisfies `P`, so does every pipe write and the remembered
`last_audio_data`. -/
theorem writerStep_preserves (quality : List Char) (P : List Nat → Prop)
    (s : WriterState) (e : PopResult)
    (hw : ∀ w ∈ s.pipeWrites, P w) (hl : ∀ f, s.lastAudioData = some f → P f)
    (he : ∀ f, e = .frame f → P f) :
    (∀ w ∈ (writerStep quality s e).pipeWrites, P w)
    ∧ (∀ f, (writerStep quality s e).lastAudioData = some f → P f) := by
  cases e with
  | frame f =>
    have hf : P f := he f rfl
    constructor
    · intro w hwmem
      rcases List.mem_append.mp hwmem with h | h
      · exact hw w h
      · rw [List.mem_singleton.mp h]; exact hf
    · intro g hg
      cases hg
      exact hf
  | timeout =>
    have hstep : writerStep quality s PopResult.timeout
        = if pyTruthy s.lastAudioData then pipeWrite quality s (s.lastAudioData.getD [])
          else s := rfl
    rw [hstep]
    by_cases ht : pyTruthy s.lastAudioData = true
    · rw [if_pos ht]
      have hlast : P (s.lastAudioData.getD []) := by
        cases hld : s.lastAudioData with
        | none => rw [hld] at ht; simp [pyTruthy] at ht
        | some g => exact hl g hld
      constructor
      · intro w hwmem
        rcases List.mem_append.mp hwmem with h | h
        · exact hw w h
        · rw [List.mem_singleton.mp h]; exact hlast
      · exact hl
    · rw [if_neg ht]
      exact ⟨hw, hl⟩

theorem writerFold_preserves (quality : List Char) (P : List Nat → Prop) :
    ∀ (evs : List PopResult) (s : WriterState),
      (∀ w ∈ s.pipeWrites, P w) → (∀ f, s.lastAudioData = some f → P f) →
      (∀ f, PopResult.frame f ∈ evs → P f) →
      (∀ w ∈ (evs.foldl (writerStep quality) s).pipeWrites, P w)
      ∧ (∀ f, (evs.foldl (writerStep quality) s).lastAudioData = some f → P f) := by
  intro evs
  induction evs with
  | nil => intro s hw hl _; exact ⟨hw, hl⟩
  | cons e rest ih =>
    intro s hw hl he
    rw [List.foldl_cons]
    have step := writerStep_preserves quality P s e hw hl
      (fun f hf => he f (by rw [hf]; exact List.mem_cons_self _ _))
    exact ih _ step.1 step.2 (fun f hf => he f (List.mem_cons_of_mem _ hf))

/-- A run of consecutive timeouts with a truthy remembered frame `f` appends
exactly one copy of `f` to the pipe per timeout and leaves `last_audio_data`
unchanged. -/
theorem writerFold_timeouts (quality : List Char) (f : List Nat) (hf : f ≠ []) :
    ∀ (k : Nat) (s : WriterState), s.lastAudioData = some f →
      ((List.replicate k PopResult.timeout).foldl (writerStep quality) s).pipeWrites
          = s.pipeWrites ++ List.replicate k f
      ∧ ((List.replicate k PopResult.timeout).foldl (writerStep quality) s).lastAudioData
          = some f := by
  intro k
  induction k with
  | zero => intro s hs; simpa using hs
  | succ m ih =>
    intro s hs
    rw [List.replicate_succ, List.foldl_cons]
    have ht : pyTruthy s.lastAudioData = true := by
      rw [hs]
      cases f with
      | nil => exact absurd rfl hf
      | cons a l => rfl
    have hstep : writerStep quality s .timeout = pipeWrite quality s f := by
      have h0 : writerStep quality s PopResult.timeout
          = if pyTruthy s.lastAudioData then pipeWrite quality s (s.lastAudioData.getD [])
            else s := rfl
      rw [h0, if_pos ht, hs]
      rfl
    rw [hstep]
    have hlast : (pipeWrite quality s f).lastAudioData = some f := hs
    have := ih (pipeWrite quality s f) hlast
    refine ⟨?_, this.2⟩
    rw [this.1]
    show s.pipeWrites ++ [f] ++ List.replicate m f = _
    rw [List.append_assoc, List.replicate_succ]
    rfl

/-- Claim C8: on every pop timeout the SinkWriter re-writes `lastFrame` when
one exists and writes nothing that cycle otherwise; under `k` sustained
timeouts it appends exactly `k` repetitions of `lastFrame`, and every byte
string it ever writes is a previously popped frame — hence of length
`frameBytes` and never empty when all popped frames are. -/
theorem c8_underrun_repetition (quality : List Char) (evs : List PopResult)
    (k n : Nat) (hn : 0 < n)
    (hframes : ∀ f, PopResult.frame f ∈ evs → f.length = n) :
    (∀ w ∈ (writerRun quality (evs ++ List.replicate k PopResult.timeout)).pipeWrites,
        w.length = n)
    ∧ ((∀ f, PopResult.frame f ∉ evs) →
        (writerRun quality (evs ++ List.replicate k PopResult.timeout)).pipeWrites = [])
    ∧ (∀ f, (writerRun quality evs).lastAudioData = some f →
        (writerRun quality (evs ++ List.replicate k PopResult.timeout)).pipeWrites
          = (writerRun quality evs).pipeWrites ++ List.replicate k f) := by
  have hrepl : ∀ f, PopResult.frame f ∈ List.replicate k PopResult.timeout → f.length = n := by
    intro f hmem
    have := List.eq_of_mem_replicate hmem
    exact absurd this (by simp)
  have hall : ∀ f, PopResult.frame f ∈ evs ++ List.replicate k PopResult.timeout →
      f.length = n := by
    intro f hmem
    rcases List.mem_append.mp hmem with h | h
    · exact hframes f h
    · exact hrepl f h
  refine ⟨?_, ?_, ?_⟩
  · exact (writerFold_preserves quality (fun w => w.length = n) _ writerInit
      (by simp [writerInit]) (by simp [writerInit]) hall).1
  · intro hnone
    have hnoneall : ∀ f, PopResult.frame f ∈ evs ++ List.replicate k PopResult.timeout →
        False := by
      intro f hmem
      rcases List.mem_append.mp hmem with h | h
      · exact hnone f h
      · exact absurd (List.eq_of_mem_replicate h) (by simp)
    have := (writerFold_preserves quality (fun _ => False) _ writerInit
      (by simp [writerInit]) (by simp [writerInit]) hnoneall).1
    exact List.eq_nil_iff_forall_not_mem.mpr (fun w hw => this w hw)
  · intro f hlast
    have hflen : f.length = n :=
      (writerFold_preserves quality (fun w => w.length = n) evs writerInit
        (by simp [writerInit]) (by simp [writerInit]) hframes).2 f hlast
    have hfne : f ≠ [] := by
      intro hcontra
      rw [hcontra] at hflen
      simp at hflen
      omega
    rw [writerRun_append]
    exact (writerFold_timeouts quality f hfne k (writerRun quality evs) hlast).1

theorem c8_underrun_repetition_witness :
    (∀ w ∈ (writerRun "balanced".data
        ([PopResult.frame [7, 7]] ++ List.replicate 2 PopResult.timeout)).pipeWrites,
        w.length = 2)
    ∧ ((∀ f, PopResult.frame f ∉ [PopResult.frame [7, 7]]) →
        (writerRun "balanced".data
          ([PopResult.frame [7, 7]] ++ List.replicate 2 PopResult.timeout)).pipeWrites = [])
    ∧ (∀ f, (writerRun "balanced".data [PopResult.frame [7, 7]]).lastAudioData = some f →
        (writerRun "balanced".data
            ([PopResult.frame [7, 7]] ++ List.replicate 2 PopResult.timeout)).pipeWrites
          = (writerRun "balanced".data [PopResult.frame [7, 7]]).pipeWrites
              ++ List.replicate 2 f) :=
  c8_underrun_repetition "balanced".data [PopResult.frame [7, 7]] 2 2 (by decide)
    (by
      intro f hf
      rw [List.mem_singleton] at hf
      cases hf
      rfl)

/-- Claim C9: the SinkWriter flushes exactly after every `N`-th frame write
and at no other write, `N = flushInterval quality` (3 for `low_latency`,
5 otherwise): after any sequence of pop outcomes the recorded flush points
are precisely the multiples of `N` among the write counts `1..writeCount`. -/
theorem c9_flush_cadence (quality : List Char) (evs : List PopResult) :
    (writerRun quality evs).flushedAt
      = ((List.range (writerRun quality evs).writeCount).map (· + 1)).filter
          (fun i => i % flushInterval quality == 0) := by
  suffices h : ∀ (l : List PopResult) (s : WriterState),
      s.flushedAt = ((List.range s.writeCount).map (· + 1)).filter
        (fun i => i % flushInterval quality == 0) →
      (l.foldl (writerStep quality) s).flushedAt
        = ((List.range (l.foldl (writerStep quality) s).writeCount).map (· + 1)).filter
            (fun i => i % flushInterval quality == 0) by
    exact h evs writerInit (by simp [writerInit])
  intro l
  induction l with
  | nil => intro s hs; exact hs
  | cons e rest ih =>
    intro s hs
    rw [List.foldl_cons]
    apply ih
    have hwrite : ∀ f, (pipeWrite quality s f).flushedAt
        = ((List.range (pipeWrite quality s f).writeCount).map (· + 1)).filter
            (fun i => i % flushInterval quality == 0) := by
      intro f
      show (if (s.writeCount + 1) % flushInterval quality = 0 then
              s.flushedAt ++ [s.writeCount + 1] else s.flushedAt)
          = ((List.range (s.writeCount + 1)).map (· + 1)).filter
              (fun i => i % flushInterval quality == 0)
      rw [List.range_succ, List.map_append, List.filter_append, ← hs]
      by_cases hdiv : (s.writeCount + 1) % flushInterval quality = 0
      · rw [if_pos hdiv]
        simp [hdiv]
      · rw [if_neg hdiv]
        simp [hdiv]
    cases e with
    | frame f => exact hwrite f
    | timeout =>
      have h0 : writerStep quality s PopResult.timeout
          = if pyTruthy s.lastAudioData then pipeWrite quality s (s.lastAudioData.getD [])
            else s := rfl
      rw [h0]
      by_cases ht : pyTruthy s.lastAudioData = true
      · rw [if_pos ht]
        exact hwrite _
      · rw [if_neg ht]
        exact hs

/-! ## Handshake
Embeds `receive_audio_config` (server.py lines 388-473) and the client's
`send_audio_config` line construction (client.py lines 136-148).  The bytes
a client sends before closing its socket are a `List Nat`; the embedding
covers ASCII inputs, on which Python's UTF-8 decoding is the identity on
byte values. -/

structure SessionConfig where
  sample_rate : Int
  channels : Int
  chunk_size : Int
  quality : List Char
deriving DecidableEq

/-- Python's whitespace set for `str.strip()` and `int(str)`, restricted to
ASCII: TAB, LF, VT, FF, CR, FS, GS, RS, US and space. -/
def isPySpace (c : Char) : Bool :=
  c.toNat = 9 ∨ c.toNat = 10 ∨ c.toNat = 11 ∨ c.toNat = 12 ∨ c.toNat = 13
  ∨ c.toNat = 28 ∨ c.toNat = 29 ∨ c.toNat = 30 ∨ c.toNat = 31 ∨ c.toNat = 32

/-- Remove trailing characters satisfying `p`. -/
def dropWhileRight (p : Char → Bool) (cs : List Char) : List Char :=
  (cs.reverse.dropWhile p).reverse

/-- Python `str.strip()`: whitespace removed from both ends. -/
def pyStrip (cs : List Char) : List Char :=
  (dropWhileRight isPySpace cs).dropWhile isPySpace

/-- Python `str.split(":")`: split at every colon, keeping empty pieces. -/
def splitColon : List Char → List (List Char)
  | [] => [[]]
  | c :: rest =>
    if c = ':' then [] :: splitColon rest
    else
      match splitColon rest with
      | p :: ps => (c :: p) :: ps
      | [] => [[c]]

/-- Python `str.startswith(p)`. -/
def startsWithChars (p cs : List Char) : Bool :=
  cs.take p.length == p

/-- The value of an ASCII decimal digit character. -/
def digitVal? (c : Char) : Option Nat :=
  if '0' ≤ c ∧ c ≤ '9' then some (c.toNat - 48) else none

/-- Digit run of Python `int(str)` after the first digit: decimal digits with
single underscores allowed strictly between digits. -/
def parseDigRest (acc : Nat) : List Char → Option Nat
  | [] => some acc
  | c :: rest =>
    if c = '_' then
      match rest with
      | [] => none
      | c2 :: rest2 =>
        match digitVal? c2 with
        | some d => parseDigRest (acc * 10 + d) rest2
        | none => none
    else
      match digitVal? c with
      | some d => parseDigRest (acc * 10 + d) rest
      | none => none

/-- A nonempty digit run: the first character must be a digit. -/
def parseDigits : List Char → Option Nat
  | [] => none
  | c :: rest =>
    match digitVal? c with
    | some d => parseDigRest d rest
    | none => none

/-- Python `int(str)` on ASCII text: strip whitespace, optional single sign,
then a digit run (underscores allowed between digits); anything else raises
`ValueError` (`none`). -/
def pyInt (cs : List Char) : Option Int :=
  match pyStrip cs with
  | [] => none
  | c :: rest =>
    if c = '+' then (parseDigits rest).map (fun n => (n : Int))
    else if c = '-' then (parseDigits rest).map (fun n => -(n : Int))
    else (parseDigits (c :: rest)).map (fun n => (n : Int))

/-- `buffer.decode('utf-8')` restricted to ASCII byte strings: below 128 every
byte decodes to the character of the same code point; other bytes start
multi-byte sequences the claims never exercise. -/
def decodeAscii (bs : List Nat) : Option (List Char) :=
  if bs.all (· < 128) then some (bs.map Char.ofNat) else none

/-- The byte-by-byte config-line read loop (server.py lines 395-407):
read one byte at a time until the buffer contains a newline or has reached
256 bytes; a zero-length read (peer closed, input exhausted) fails the
handshake. -/
def readLoop (input : List Nat) (buffer : List Nat) : Option (List Nat) :=
  if 10 ∈ buffer ∨ 256 ≤ buffer.length then some buffer
  else
    match input with
    | [] => none
    | b :: rest => readLoop rest (buffer ++ [b])

/-- Validation and parsing of the stripped config line (server.py lines
423-469): `CONFIG:` must lead, at least 4 colon fields must be present, the
three numeric fields must parse, quality is taken verbatim (defaulting to
`balanced` when absent), and the three numeric ranges are enforced. -/
def parseConfigValues (line : List Char) : Option SessionConfig :=
  if startsWithChars "CONFIG:".data line then
    if (splitColon line).length < 4 then none
    else
      match pyInt ((splitColon line).getD 1 []), pyInt ((splitColon line).getD 2 []),
          pyInt ((splitColon line).getD 3 []) with
      | some sr, some ch, some cs =>
        if sr < 8000 ∨ 96000 < sr then none
        else if ch < 1 ∨ 2 < ch then none
        else if cs < 64 ∨ 4096 < cs then none
        else some ⟨sr, ch, cs,
          if 5 ≤ (splitColon line).length then (splitColon line).getD 4 []
          else "balanced".data⟩
      | _, _, _ => none
  else none

/-- The buffer-level checks of `receive_audio_config` (server.py lines
408-421): reject a 256-byte buffer as too long, reject an empty buffer,
decode, strip, then parse. -/
def parseConfigBuffer (buffer : List Nat) : Option SessionConfig :=
  if 256 ≤ buffer.length then none
  else if buffer.isEmpty then none
  else
    match decodeAscii buffer with
    | none => none
    | some s => parseConfigValues (pyStrip s)

/-- `receive_audio_config` (server.py lines 388-473) applied to the byte
stream the client sends: `none` is a failed handshake (`return False`),
`some c` a validated accepted configuration. -/
def receive_audio_config (input : List Nat) : Option SessionConfig :=
  match readLoop input [] with
  | none => none
  | some buffer => parseConfigBuffer buffer

/-- Bytes of an ASCII string, as sent on the wire. -/
def strToBytes (s : String) : List Nat := s.data.map Char.toNat

theorem readLoop_stop {input buffer : List Nat}
    (h : 10 ∈ buffer ∨ 256 ≤ buffer.length) :
    readLoop input buffer = some buffer := by
  rw [readLoop.eq_def, if_pos h]

/-- Full characterization of the read loop: it returns the input up to and
including its first newline when that fits the 256-byte buffer, else the
first 256 bytes when the input is long enough, and otherwise fails
(connection closed before a newline or a full buffer). -/
theorem readLoop_characterization :
    ∀ (input buffer : List Nat), 10 ∉ buffer → buffer.length ≤ 255 →
      readLoop input buffer =
        if 10 ∈ input ∧ buffer.length + (input.takeWhile (· != 10)).length + 1 ≤ 256 then
          some (buffer ++ input.takeWhile (· != 10) ++ [10])
        else if 256 ≤ buffer.length + input.length then
          some (buffer ++ input.take (256 - buffer.length))
        else none := by
  intro input
  induction input with
  | nil =>
    intro buffer hbuf hlen
    rw [readLoop.eq_def, if_neg (by push_neg; exact ⟨hbuf, by omega⟩)]
    have h1 : ¬ (10 ∈ ([] : List Nat) ∧
        buffer.length + (List.takeWhile (fun x => x != 10) ([] : List Nat)).length + 1
          ≤ 256) := by
      rintro ⟨h, -⟩
      exact List.not_mem_nil 10 h
    rw [if_neg h1, if_neg (by simp; omega)]
  | cons b rest ih =>
    intro buffer hbuf hlen
    rw [readLoop.eq_def, if_neg (by push_neg; exact ⟨hbuf, by omega⟩)]
    show readLoop rest (buffer ++ [b]) = _
    by_cases hb : b = 10
    · subst hb
      rw [readLoop_stop (Or.inl (by simp))]
      have htw : (10 :: rest).takeWhile (· != 10) = [] := by
        simp [List.takeWhile_cons]
      rw [if_pos ⟨List.mem_cons_self _ _, by rw [htw]; simpa using hlen⟩, htw]
      simp
    · have hbuf' : 10 ∉ buffer ++ [b] := by
        intro h
        rcases List.mem_append.mp h with h | h
        · exact hbuf h
        · exact hb (List.mem_singleton.mp h).symm
      have htw : (b :: rest).takeWhile (· != 10) = b :: rest.takeWhile (· != 10) := by
        simp [List.takeWhile_cons, hb]
      have hmem : (10 ∈ b :: rest) ↔ (10 ∈ rest) := by
        constructor
        · intro h
          rcases List.mem_cons.mp h with h | h
          · exact absurd h.symm hb
          · exact h
        · exact List.mem_cons_of_mem _
      by_cases hl : buffer.length = 255
      · rw [readLoop_stop (Or.inr (by simp [hl]))]
        have h1 : ¬ ((10 ∈ b :: rest) ∧
            buffer.length + ((b :: rest).takeWhile (· != 10)).length + 1 ≤ 256) := by
          rw [htw]
          rintro ⟨-, hle⟩
          rw [List.length_cons] at hle
          omega
        rw [if_neg h1, if_pos (by rw [List.length_cons]; omega)]
        have : 256 - buffer.length = 1 := by omega
        rw [this]
        simp
      · have hlen' : (buffer ++ [b]).length ≤ 255 := by simp; omega
        rw [ih (buffer ++ [b]) hbuf' hlen']
        apply if_congr
        · rw [hmem, htw]
          simp only [List.length_append, List.length_cons, List.length_singleton,
            List.length_nil]
          constructor
          · rintro ⟨h1, h2⟩; exact ⟨h1, by omega⟩
          · rintro ⟨h1, h2⟩; exact ⟨h1, by omega⟩
        · rw [htw]
          simp [List.append_assoc]
        · apply if_congr
          · simp only [List.length_append, List.length_cons, List.length_singleton,
              List.length_nil]
            omega
          · have hsub : 256 - buffer.length = (256 - (buffer ++ [b]).length) + 1 := by
              simp only [List.length_append, List.length_singleton]
              omega
            rw [hsub, List.take_succ_cons]
            simp [List.append_assoc]
          · rfl

/-- A handshake read succeeds on the first line exactly when the first
newline lies within the first 255 bytes of the stream. -/
theorem receive_audio_config_line {input : List Nat}
    (h : 10 ∈ input) (hlen : (input.takeWhile (· != 10)).length ≤ 254) :
    receive_audio_config input
      = parseConfigBuffer (input.takeWhile (· != 10) ++ [10]) := by
  unfold receive_audio_config
  rw [readLoop_characterization input [] (List.not_mem_nil 10) (by simp)]
  simp only [List.length_nil, List.nil_append, Nat.zero_add, Nat.sub_zero]
  rw [if_pos ⟨h, by omega⟩]

theorem receive_audio_config_none_of_no_newline {input : List Nat}
    (h : ¬ 10 ∈ input ∨ 255 ≤ (input.takeWhile (· != 10)).length) :
    receive_audio_config input = none := by
  unfold receive_audio_config
  rw [readLoop_characterization input [] (List.not_mem_nil 10) (by simp)]
  simp only [List.length_nil, List.nil_append, Nat.zero_add, Nat.sub_zero]
  rcases h with h | h
  · rw [if_neg (fun hc => h hc.1)]
    by_cases h2 : 256 ≤ input.length
    · rw [if_pos h2]
      show parseConfigBuffer _ = none
      unfold parseConfigBuffer
      rw [if_pos (by rw [List.length_take]; omega)]
    · rw [if_neg h2]
  · by_cases hc : 10 ∈ input ∧ (input.takeWhile (· != 10)).length + 1 ≤ 256
    · rw [if_pos hc]
      show parseConfigBuffer _ = none
      unfold parseConfigBuffer
      rw [if_pos (by rw [List.length_append, List.length_singleton]; omega)]
    · rw [if_neg hc]
      by_cases h2 : 256 ≤ input.length
      · rw [if_pos h2]
        show parseConfigBuffer _ = none
        unfold parseConfigBuffer
        rw [if_pos (by rw [List.length_take]; omega)]
      · rw [if_neg h2]

set_option maxRecDepth 8000

/-- Claim C10: the handshake accepts only if the terminating newline lies
within the first 255 bytes (line length including the newline at most 255);
a config line whose newline arrives exactly as the 256th byte is rejected
even though a complete, otherwise valid newline-terminated line arrived
within the 256-byte cap, while the same line one byte shorter is accepted. -/
theorem c10_line_cap :
    (∀ (input : List Nat) (c : SessionConfig), receive_audio_config input = some c →
        10 ∈ input ∧ (input.takeWhile (· != 10)).length ≤ 254)
    ∧ receive_audio_config
        (List.replicate 228 32 ++ strToBytes "CONFIG:44100:1:128:balanced" ++ [10]) = none
    ∧ receive_audio_config
        (List.replicate 227 32 ++ strToBytes "CONFIG:44100:1:128:balanced" ++ [10])
        = some ⟨44100, 1, 128, "balanced".data⟩ := by
  refine ⟨?_, by decide, by decide⟩
  intro input c h
  by_cases hmem : 10 ∈ input
  · refine ⟨hmem, ?_⟩
    by_contra hlong
    rw [receive_audio_config_none_of_no_newline (Or.inr (by omega))] at h
    exact Option.noConfusion h
  · rw [receive_audio_config_none_of_no_newline (Or.inl hmem)] at h
    exact Option.noConfusion h

theorem c10_line_cap_witness :
    10 ∈ (List.replicate 227 32 ++ strToBytes "CONFIG:44100:1:128:balanced" ++ [10])
    ∧ ((List.replicate 227 32 ++ strToBytes "CONFIG:44100:1:128:balanced"
          ++ [10]).takeWhile (· != 10)).length ≤ 254 :=
  c10_line_cap.1 _ ⟨44100, 1, 128, "balanced".data⟩ c10_line_cap.2.2

/-! ## Client config line
Embeds `send_audio_config` (client.py lines 136-148): the wire line is the
f-string `CONFIG:<sample_rate>:<channels>:<chunk_size>:<quality>\n`. -/

/-- Python `str(n)` for a natural number: decimal digits, most significant
first. -/
def natToChars (n : Nat) : List Char :=
  if n < 10 then [Nat.digitChar n]
  else natToChars (n / 10) ++ [Nat.digitChar (n % 10)]
termination_by n
decreasing_by exact Nat.div_lt_self (by omega) (by omega)

/-- Python `str(i)` for an integer. -/
def intToChars (i : Int) : List Char :=
  if i < 0 then '-' :: natToChars (-i).toNat else natToChars i.toNat

/-- The config line built by `send_audio_config` (client.py line 142). -/
def send_audio_config_line (c : SessionConfig) : List Char :=
  "CONFIG:".data ++ intToChars c.sample_rate ++ [':'] ++ intToChars c.channels
    ++ [':'] ++ intToChars c.chunk_size ++ [':'] ++ c.quality ++ ['\n']

/-- The bytes of the config line as transmitted (`config_str.encode('utf-8')`,
ASCII contents). -/
def configBytes (c : SessionConfig) : List Nat :=
  (send_audio_config_line c).map Char.toNat

/-- The SessionConfig invariants of the specification: numeric ranges plus a
valid quality enum value. -/
def validSessionConfig (c : SessionConfig) : Prop :=
  8000 ≤ c.sample_rate ∧ c.sample_rate ≤ 96000
  ∧ 1 ≤ c.channels ∧ c.channels ≤ 2
  ∧ 64 ≤ c.chunk_size ∧ c.chunk_size ≤ 4096
  ∧ (c.quality = "low_latency".data ∨ c.quality = "balanced".data
      ∨ c.quality = "high_quality".data)

theorem digitChar_facts {d : Nat} (h : d < 10) :
    Nat.digitChar d ≠ ':' ∧ Nat.digitChar d ≠ '_'
    ∧ isPySpace (Nat.digitChar d) = false
    ∧ (Nat.digitChar d).toNat = 48 + d
    ∧ digitVal? (Nat.digitChar d) = some d
    ∧ Nat.digitChar d ≠ '+' ∧ Nat.digitChar d ≠ '-' := by
  interval_cases d <;> decide

theorem natToChars_mem (n : Nat) :
    ∀ c ∈ natToChars n, ∃ d, d < 10 ∧ c = Nat.digitChar d := by
  induction n using Nat.strong_induction_on with
  | _ n ih =>
    rw [natToChars.eq_def]
    split
    · intro c hc
      exact ⟨n, by omega, List.mem_singleton.mp hc⟩
    · intro c hc
      rcases List.mem_append.mp hc with h | h
      · exact ih (n / 10) (Nat.div_lt_self (by omega) (by omega)) c h
      · exact ⟨n % 10, Nat.mod_lt _ (by omega), List.mem_singleton.mp h⟩

theorem natToChars_ne_nil (n : Nat) : natToChars n ≠ [] := by
  rw [natToChars.eq_def]
  split
  · simp
  · simp

theorem natToChars_length_le : ∀ (k n : Nat), n < 10 ^ (k + 1) →
    (natToChars n).length ≤ k + 1 := by
  intro k
  induction k with
  | zero =>
    intro n h
    rw [natToChars.eq_def, if_pos (by omega)]
    simp
  | succ m ih =>
    intro n h
    rw [natToChars.eq_def]
    split
    · simp
    · rw [List.length_append]
      have hd : n / 10 < 10 ^ (m + 1) := by
        rw [Nat.div_lt_iff_lt_mul (by omega)]
        calc n < 10 ^ (m + 1 + 1) := h
          _ = 10 ^ (m + 1) * 10 := by rw [pow_succ]
      have := ih (n / 10) hd
      simp only [List.length_singleton]
      omega

theorem parseDigRest_digits :
    ∀ (ds : List Char) (acc : Nat), (∀ c ∈ ds, ∃ d, d < 10 ∧ c = Nat.digitChar d) →
      parseDigRest acc ds
        = some (ds.foldl (fun a c => a * 10 + (c.toNat - 48)) acc) := by
  intro ds
  induction ds with
  | nil => intro acc _; rfl
  | cons c rest ih =>
    intro acc hall
    obtain ⟨d, hd, hc⟩ := hall c (List.mem_cons_self _ _)
    subst hc
    have facts := digitChar_facts hd
    rw [parseDigRest.eq_def]
    simp only []
    rw [if_neg facts.2.1, facts.2.2.2.2.1]
    show parseDigRest (acc * 10 + d) rest = _
    rw [ih _ (fun x hx => hall x (List.mem_cons_of_mem _ hx)), List.foldl_cons]
    have : acc * 10 + ((Nat.digitChar d).toNat - 48) = acc * 10 + d := by
      rw [facts.2.2.2.1]
      omega
    rw [this]

theorem foldl_natToChars (n : Nat) :
    ∀ acc, (natToChars n).foldl (fun a c => a * 10 + (c.toNat - 48)) acc
      = acc * 10 ^ (natToChars n).length + n := by
  induction n using Nat.strong_induction_on with
  | _ n ih =>
    intro acc
    rw [natToChars.eq_def]
    split
    · rename_i h
      have facts := digitChar_facts (show n < 10 by omega)
      simp only [List.foldl_cons, List.foldl_nil, List.length_singleton, pow_one]
      rw [facts.2.2.2.1]
      omega
    · rename_i h
      rw [List.foldl_append, ih (n / 10) (Nat.div_lt_self (by omega) (by omega)) acc]
      have facts := digitChar_facts (show n % 10 < 10 from Nat.mod_lt _ (by omega))
      simp only [List.foldl_cons, List.foldl_nil, List.length_append,
        List.length_singleton]
      rw [facts.2.2.2.1]
      have hstep : acc * 10 ^ (natToChars (n / 10)).length * 10 + n
          = acc * 10 ^ ((natToChars (n / 10)).length + 1) + n := by
        rw [pow_succ]
        ring
      have hdm : n / 10 * 10 + n % 10 = n := by omega
      calc (acc * 10 ^ (natToChars (n / 10)).length + n / 10) * 10 + (48 + n % 10 - 48)
          = acc * 10 ^ (natToChars (n / 10)).length * 10 + (n / 10 * 10 + n % 10) := by
            omega
        _ = acc * 10 ^ (natToChars (n / 10)).length * 10 + n := by rw [hdm]
        _ = acc * 10 ^ ((natToChars (n / 10)).length + 1) + n := hstep

theorem parseDigits_natToChars (n : Nat) : parseDigits (natToChars n) = some n := by
  rcases hcons : natToChars n with _ | ⟨c, rest⟩
  · exact absurd hcons (natToChars_ne_nil n)
  · obtain ⟨d, hd, hc⟩ := natToChars_mem n c (by rw [hcons]; exact List.mem_cons_self _ _)
    subst hc
    have facts := digitChar_facts hd
    rw [parseDigits, facts.2.2.2.2.1]
    show parseDigRest d rest = some n
    rw [parseDigRest_digits rest d (fun x hx =>
      natToChars_mem n x (by rw [hcons]; exact List.mem_cons_of_mem _ hx))]
    have hfold := foldl_natToChars n 0
    rw [hcons, List.foldl_cons, facts.2.2.2.1] at hfold
    simp only [Nat.zero_mul, Nat.zero_add] at hfold
    rw [show 48 + d - 48 = d by omega] at hfold
    rw [hfold]

theorem dropWhile_eq_self_of_none {p : Char → Bool} {cs : List Char}
    (h : ∀ c ∈ cs, p c = false) : cs.dropWhile p = cs := by
  cases cs with
  | nil => rfl
  | cons c rest =>
    rw [List.dropWhile_cons, h c (List.mem_cons_self _ _)]
    simp

theorem pyStrip_eq_self {cs : List Char} (h : ∀ c ∈ cs, isPySpace c = false) :
    pyStrip cs = cs := by
  unfold pyStrip dropWhileRight
  rw [dropWhile_eq_self_of_none (fun c hc => h c (List.mem_reverse.mp hc)),
    List.reverse_reverse, dropWhile_eq_self_of_none h]

theorem pyStrip_append_newline (cs : List Char) :
    pyStrip (cs ++ ['\n']) = pyStrip cs := by
  unfold pyStrip dropWhileRight
  rw [List.reverse_append]
  show ((('\n' :: cs.reverse).dropWhile isPySpace).reverse).dropWhile isPySpace = _
  rw [List.dropWhile_cons, if_pos (by decide)]

theorem natToChars_no_space (n : Nat) :
    ∀ c ∈ natToChars n, isPySpace c = false := by
  intro c hc
  obtain ⟨d, hd, hc⟩ := natToChars_mem n c hc
  subst hc
  exact (digitChar_facts hd).2.2.1

theorem natToChars_no_colon (n : Nat) : ∀ c ∈ natToChars n, c ≠ ':' := by
  intro c hc
  obtain ⟨d, hd, hc⟩ := natToChars_mem n c hc
  subst hc
  exact (digitChar_facts hd).1

theorem pyInt_natToChars (n : Nat) : pyInt (natToChars n) = some (n : Int) := by
  unfold pyInt
  rw [pyStrip_eq_self (natToChars_no_space n)]
  rcases hcons : natToChars n with _ | ⟨c, rest⟩
  · exact absurd hcons (natToChars_ne_nil n)
  · obtain ⟨d, hd, hc⟩ := natToChars_mem n c (by rw [hcons]; exact List.mem_cons_self _ _)
    subst hc
    have facts := digitChar_facts hd
    show (if Nat.digitChar d = '+' then (parseDigits rest).map (fun n => (n : Int))
      else if Nat.digitChar d = '-' then (parseDigits rest).map (fun n => -(n : Int))
      else (parseDigits (Nat.digitChar d :: rest)).map (fun n => (n : Int)))
      = some (n : Int)
    rw [if_neg facts.2.2.2.2.2.1, if_neg facts.2.2.2.2.2.2, ← hcons,
      parseDigits_natToChars n]
    rfl

theorem splitColon_append_colon (xs ys : List Char) (h : ∀ c ∈ xs, c ≠ ':') :
    splitColon (xs ++ ':' :: ys) = xs :: splitColon ys := by
  induction xs with
  | nil =>
    rw [List.nil_append, splitColon, if_pos rfl]
  | cons c rest ih =>
    rw [List.cons_append, splitColon, if_neg (h c (List.mem_cons_self _ _)),
      ih (fun x hx => h x (List.mem_cons_of_mem _ hx))]

theorem splitColon_no_colon (xs : List Char) (h : ∀ c ∈ xs, c ≠ ':') :
    splitColon xs = [xs] := by
  induction xs with
  | nil => rfl
  | cons c rest ih =>
    rw [splitColon, if_neg (h c (List.mem_cons_self _ _)),
      ih (fun x hx => h x (List.mem_cons_of_mem _ hx))]

theorem takeWhile_bytes_append {xs : List Nat} (ys : List Nat)
    (hall : ∀ x ∈ xs, x ≠ 10) :
    (xs ++ 10 :: ys).takeWhile (· != 10) = xs := by
  induction xs with
  | nil =>
    rw [List.nil_append, List.takeWhile_cons]
    simp
  | cons x rest ih =>
    rw [List.cons_append, List.takeWhile_cons,
      if_pos (by simpa using hall x (List.mem_cons_self _ _)),
      ih (fun z hz => hall z (List.mem_cons_of_mem _ hz))]

/-- Claim C7: encoding any valid SessionConfig as the wire line and parsing it
back yields the identical configuration. -/
theorem c7_roundtrip (c : SessionConfig) (h : validSessionConfig c) :
    receive_audio_config (configBytes c) = some c := by
  obtain ⟨h1, h2, h3, h4, h5, h6, hq⟩ := h
  have hqfacts : ∀ ch ∈ c.quality,
      ch.toNat < 128 ∧ isPySpace ch = false ∧ ch ≠ ':' ∧ ch.toNat ≠ 10 := by
    rcases hq with hq | hq | hq <;> rw [hq] <;> decide
  have hqlen : c.quality.length ≤ 12 := by
    rcases hq with hq | hq | hq <;> rw [hq] <;> decide
  have hsr : intToChars c.sample_rate = natToChars c.sample_rate.toNat := by
    unfold intToChars
    rw [if_neg (by omega)]
  have hch : intToChars c.channels = natToChars c.channels.toNat := by
    unfold intToChars
    rw [if_neg (by omega)]
  have hcs : intToChars c.chunk_size = natToChars c.chunk_size.toNat := by
    unfold intToChars
    rw [if_neg (by omega)]
  set d1 := natToChars c.sample_rate.toNat with hd1
  set d2 := natToChars c.channels.toNat with hd2
  set d3 := natToChars c.chunk_size.toNat with hd3
  set body := "CONFIG:".data ++ d1 ++ [':'] ++ d2 ++ [':'] ++ d3 ++ [':'] ++ c.quality
    with hbody
  have hline : send_audio_config_line c = body ++ ['\n'] := by
    rw [send_audio_config_line, hsr, hch, hcs, hbody]
  have hbodyfacts : ∀ ch ∈ body,
      ch.toNat < 128 ∧ isPySpace ch = false ∧ ch.toNat ≠ 10 := by
    intro ch hmem
    rw [hbody] at hmem
    simp only [List.append_assoc, List.mem_append] at hmem
    rcases hmem with hm | hm | hm | hm | hm | hm | hm | hm
    · fin_cases hm <;> decide
    · obtain ⟨d, hd, hceq⟩ := natToChars_mem _ ch hm
      subst hceq
      have := (digitChar_facts hd).2.2.2.1
      exact ⟨by omega, (digitChar_facts hd).2.2.1, by omega⟩
    · rw [List.mem_singleton.mp hm]; decide
    · obtain ⟨d, hd, hceq⟩ := natToChars_mem _ ch hm
      subst hceq
      have := (digitChar_facts hd).2.2.2.1
      exact ⟨by omega, (digitChar_facts hd).2.2.1, by omega⟩
    · rw [List.mem_singleton.mp hm]; decide
    · obtain ⟨d, hd, hceq⟩ := natToChars_mem _ ch hm
      subst hceq
      have := (digitChar_facts hd).2.2.2.1
      exact ⟨by omega, (digitChar_facts hd).2.2.1, by omega⟩
    · rw [List.mem_singleton.mp hm]; decide
    · obtain ⟨hf1, hf2, hf3, hf4⟩ := hqfacts ch hm
      exact ⟨hf1, hf2, hf4⟩
  have hd1len : d1.length ≤ 5 := by
    apply natToChars_length_le 4
    have : c.sample_rate.toNat ≤ 96000 := by omega
    omega
  have hd2len : d2.length ≤ 1 := by
    apply natToChars_length_le 0
    have : c.channels.toNat ≤ 2 := by omega
    omega
  have hd3len : d3.length ≤ 4 := by
    apply natToChars_length_le 3
    have : c.chunk_size.toNat ≤ 4096 := by omega
    omega
  have hbodylen : body.length ≤ 254 := by
    rw [hbody]
    simp only [List.length_append, List.length_singleton, List.length_cons,
      List.length_nil, String.data]
    omega
  have hbytes : configBytes c = body.map Char.toNat ++ [10] := by
    rw [configBytes, hline, List.map_append]
    rfl
  have hnotten : ∀ x ∈ body.map Char.toNat, x ≠ 10 := by
    intro x hx
    obtain ⟨ch, hmem, hxeq⟩ := List.mem_map.mp hx
    rw [← hxeq]
    exact (hbodyfacts ch hmem).2.2
  have htw : ((body.map Char.toNat ++ [10]).takeWhile (· != 10)) = body.map Char.toNat := by
    have := takeWhile_bytes_append [] hnotten
    simpa using this
  rw [hbytes, receive_audio_config_line
      (by exact List.mem_append.mpr (Or.inr (List.mem_singleton.mpr rfl)))
      (by rw [htw]; simp only [List.length_map]; omega),
    htw]
  unfold parseConfigBuffer
  rw [if_neg (by simp only [List.length_append, List.length_map,
      List.length_singleton]; omega),
    if_neg (by simp)]
  have hdecode : decodeAscii (body.map Char.toNat ++ [10]) = some (body ++ ['\n']) := by
    unfold decodeAscii
    rw [if_pos]
    · rw [List.map_append, List.map_map,
        show List.map Char.ofNat [10] = ['\n'] from by decide]
      have hmapbody : List.map (Char.ofNat ∘ Char.toNat) body = body := by
        calc List.map (Char.ofNat ∘ Char.toNat) body
            = List.map id body := List.map_congr_left (fun ch _ => Char.ofNat_toNat ch)
          _ = body := List.map_id body
      rw [hmapbody]
    · rw [List.all_eq_true]
      intro x hx
      rcases List.mem_append.mp hx with hm | hm
      · obtain ⟨ch, hmem, hxeq⟩ := List.mem_map.mp hm
        rw [← hxeq]
        simpa using (hbodyfacts ch hmem).1
      · rw [List.mem_singleton.mp hm]
        decide
  rw [hdecode]
  show parseConfigValues (pyStrip (body ++ ['\n'])) = some c
  rw [pyStrip_append_newline, pyStrip_eq_self (fun ch hmem => (hbodyfacts ch hmem).2.1)]
  unfold parseConfigValues
  have hstart : startsWithChars "CONFIG:".data body = true := by
    unfold startsWithChars
    rw [hbody]
    have : "CONFIG:".data ++ d1 ++ [':'] ++ d2 ++ [':'] ++ d3 ++ [':'] ++ c.quality
        = "CONFIG:".data ++ (d1 ++ [':'] ++ d2 ++ [':'] ++ d3 ++ [':'] ++ c.quality) := by
      simp [List.append_assoc]
    rw [this, List.take_left]
    exact beq_self_eq_true _
  rw [if_pos hstart]
  have hsplit : splitColon body = ["CONFIG".data, d1, d2, d3, c.quality] := by
    have hrearr : body = "CONFIG".data ++ ':' ::
        (d1 ++ ':' :: (d2 ++ ':' :: (d3 ++ ':' :: c.quality))) := by
      rw [hbody, show "CONFIG:".data = "CONFIG".data ++ [':'] from by decide]
      simp [List.append_assoc]
    rw [hrearr,
      splitColon_append_colon _ _ (by decide),
      splitColon_append_colon _ _ (natToChars_no_colon _),
      splitColon_append_colon _ _ (natToChars_no_colon _),
      splitColon_append_colon _ _ (natToChars_no_colon _),
      splitColon_no_colon _ (fun ch hmem => (hqfacts ch hmem).2.2.1)]
  rw [hsplit]
  rw [if_neg (by simp)]
  rw [show ["CONFIG".data, d1, d2, d3, c.quality].getD 1 [] = d1 from rfl,
    show ["CONFIG".data, d1, d2, d3, c.quality].getD 2 [] = d2 from rfl,
    show ["CONFIG".data, d1, d2, d3, c.quality].getD 3 [] = d3 from rfl,
    hd1, hd2, hd3, pyInt_natToChars, pyInt_natToChars, pyInt_natToChars]
  show (if (c.sample_rate.toNat : Int) < 8000 ∨ 96000 < (c.sample_rate.toNat : Int)
      then none
      else if (c.channels.toNat : Int) < 1 ∨ 2 < (c.channels.toNat : Int) then none
      else if (c.chunk_size.toNat : Int) < 64 ∨ 4096 < (c.chunk_size.toNat : Int) then none
      else some ⟨(c.sample_rate.toNat : Int), (c.channels.toNat : Int),
        (c.chunk_size.toNat : Int), c.quality⟩) = some c
  rw [if_neg (by omega), if_neg (by omega), if_neg (by omega)]
  have e1 : (c.sample_rate.toNat : Int) = c.sample_rate := Int.toNat_of_nonneg (by omega)
  have e2 : (c.channels.toNat : Int) = c.channels := Int.toNat_of_nonneg (by omega)
  have e3 : (c.chunk_size.toNat : Int) = c.chunk_size := Int.toNat_of_nonneg (by omega)
  rw [e1, e2, e3]

theorem c7_roundtrip_witness :
    receive_audio_config (configBytes ⟨48000, 2, 256, "high_quality".data⟩)
      = some ⟨48000, 2, 256, "high_quality".data⟩ :=
  c7_roundtrip ⟨48000, 2, 256, "high_quality".data⟩
    (by exact ⟨by decide, by decide, by decide, by decide, by decide, by decide,
      Or.inr (Or.inr rfl)⟩)

/-! ## Handshake failure conditions (claim C3) -/

/-- The line-level rejection conditions of `receive_audio_config` (server.py
lines 423-448), phrased over the stripped, decoded config line: missing
`CONFIG:` lead, fewer than 4 colon fields, a numeric field that does not
parse as an integer, or a parsed numeric field outside its range.  The
quality field does not appear: the server takes it verbatim. -/
def lineFailCondition (line : List Char) : Prop :=
  ¬ startsWithChars "CONFIG:".data line = true
  ∨ (splitColon line).length < 4
  ∨ pyInt ((splitColon line).getD 1 []) = none
  ∨ pyInt ((splitColon line).getD 2 []) = none
  ∨ pyInt ((splitColon line).getD 3 []) = none
  ∨ (∃ v, pyInt ((splitColon line).getD 1 []) = some v ∧ (v < 8000 ∨ 96000 < v))
  ∨ (∃ v, pyInt ((splitColon line).getD 2 []) = some v ∧ (v < 1 ∨ 2 < v))
  ∨ (∃ v, pyInt ((splitColon line).getD 3 []) = some v ∧ (v < 64 ∨ 4096 < v))

theorem parseConfigValues_none_iff (line : List Char) :
    parseConfigValues line = none ↔ lineFailCondition line := by
  unfold parseConfigValues lineFailCondition
  by_cases hs : startsWithChars "CONFIG:".data line = true
  · rw [if_pos hs]
    by_cases h4 : (splitColon line).length < 4
    · rw [if_pos h4]
      simp [hs, h4]
    · rw [if_neg h4]
      rcases e1 : pyInt ((splitColon line).getD 1 []) with _ | v1
      · simp [hs, h4, e1]
      · rcases e2 : pyInt ((splitColon line).getD 2 []) with _ | v2
        · simp [hs, h4, e1, e2]
        · rcases e3 : pyInt ((splitColon line).getD 3 []) with _ | v3
          · simp [hs, h4, e1, e2, e3]
          · show (if v1 < 8000 ∨ 96000 < v1 then none
              else if v2 < 1 ∨ 2 < v2 then none
              else if v3 < 64 ∨ 4096 < v3 then none
              else some _) = none ↔ _
            by_cases r1 : v1 < 8000 ∨ 96000 < v1
            · rw [if_pos r1]
              simp [hs, h4, e1, e2, e3]
              exact Or.inl r1
            · rw [if_neg r1]
              by_cases r2 : v2 < 1 ∨ 2 < v2
              · rw [if_pos r2]
                simp [hs, h4, e1, e2, e3]
                exact Or.inr (Or.inl r2)
              · rw [if_neg r2]
                by_cases r3 : v3 < 64 ∨ 4096 < v3
                · rw [if_pos r3]
                  simp [hs, h4, e1, e2, e3]
                  exact Or.inr (Or.inr r3)
                · rw [if_neg r3]
                  simp [hs, h4, e1, e2, e3, r1, r2, r3]
  · rw [if_neg hs]
    simp [hs]

theorem parseConfigBuffer_line {body : List Nat}
    (hascii : ∀ b ∈ body, b < 128) (hlen : body.length ≤ 254) :
    parseConfigBuffer (body ++ [10])
      = parseConfigValues (pyStrip (body.map Char.ofNat)) := by
  unfold parseConfigBuffer
  rw [if_neg (by
      rw [List.length_append, List.length_singleton]
      omega),
    if_neg (by simp)]
  have hdec : decodeAscii (body ++ [10]) = some (body.map Char.ofNat ++ ['\n']) := by
    unfold decodeAscii
    rw [if_pos (by
      rw [List.all_eq_true]
      intro x hx
      rcases List.mem_append.mp hx with hm | hm
      · simpa using hascii x hm
      · rw [List.mem_singleton.mp hm]
        decide)]
    rw [List.map_append,
      show List.map Char.ofNat [10] = ['\n'] from by decide]
  rw [hdec]
  show parseConfigValues (pyStrip (body.map Char.ofNat ++ ['\n'])) = _
  rw [pyStrip_append_newline]

/-- The decoded, stripped first line of the client's byte stream. -/
def handshakeLine (input : List Nat) : List Char :=
  pyStrip ((input.takeWhile (· != 10)).map Char.ofNat)

/-- The amended claim-C3 failure condition over the raw byte stream: no
newline within the first 255 bytes, or one of the line-level conditions of
`lineFailCondition`. -/
def handshakeFailCondition (input : List Nat) : Prop :=
  (¬ 10 ∈ input ∨ 255 ≤ (input.takeWhile (· != 10)).length)
  ∨ lineFailCondition (handshakeLine input)

/-- Claim C3 (counterexample): the server accepts a config line whose quality
field is not one of the three enum values — `receive_audio_config` performs
no validation of the quality field, contradicting the claimed rejection. -/
theorem c3_counterexample :
    receive_audio_config (strToBytes "CONFIG:44100:1:128:weird\n")
      = some ⟨44100, 1, 128, "weird".data⟩
    ∧ "weird".data ≠ "low_latency".data
    ∧ "weird".data ≠ "balanced".data
    ∧ "weird".data ≠ "high_quality".data := by
  refine ⟨by decide, by decide, by decide, by decide⟩

/-- Claim C3 (amended): over ASCII byte streams the handshake fails if and
only if no newline arrives within the first 255 bytes, or the stripped line
does not start with `CONFIG:`, or it has fewer than 4 colon-delimited
fields, or a numeric field does not parse as a Python integer, or a parsed
numeric field violates its range (`sampleRate` in [8000, 96000], `channels`
in [1, 2], `frameSize` in [64, 4096]).  The quality field is never
validated: any quality string is accepted. -/
theorem c3_amended (input : List Nat) (ha : ∀ b ∈ input, b < 128) :
    receive_audio_config input = none ↔ handshakeFailCondition input := by
  unfold handshakeFailCondition
  by_cases hcase : ¬ 10 ∈ input ∨ 255 ≤ (input.takeWhile (· != 10)).length
  · rw [receive_audio_config_none_of_no_newline hcase]
    simp [hcase]
  · push_neg at hcase
    obtain ⟨hmem, hlen⟩ := hcase
    have htwascii : ∀ b ∈ input.takeWhile (· != 10), b < 128 := fun b hb =>
      ha b ((List.takeWhile_sublist _).subset hb)
    rw [receive_audio_config_line hmem (by omega),
      parseConfigBuffer_line htwascii (by omega),
      parseConfigValues_none_iff]
    rw [or_iff_right (by push_neg; exact ⟨hmem, by omega⟩)]
    rfl

theorem c3_amended_witness :
    receive_audio_config (strToBytes "CONFIG:7000:1:128:balanced\n") = none
      ↔ handshakeFailCondition (strToBytes "CONFIG:7000:1:128:balanced\n") :=
  c3_amended (strToBytes "CONFIG:7000:1:128:balanced\n") (by decide)

/-! ## SessionLoop
Embeds the accept/handshake/stream loop of `run` (server.py lines 767-794)
together with the `self.running` flag it tests.  `running` is set once before
the loop; each iteration first evaluates `while self.running`, then accepts a
client (the `[]` case is a failed `accept_client`, whose `else: break` ends
the loop).  A failed handshake skips streaming, leaves `running` untouched,
and the loop keeps accepting; a successful handshake runs
`stream_audio_from_client`, whose `finally` block sets `self.running = False`
(server.py line 694), so the next `while self.running` test fails and the
loop exits.  Each list element is the byte stream one connecting client
sends; the result lists each accepted client's handshake outcome in order. -/

def serverLoop : Bool → List (List Nat) → List (Option SessionConfig)
  | false, _ => []
  | true, [] => []
  | true, c :: rest =>
    match receive_audio_config c with
    | none => none :: serverLoop true rest
    | some cfg => some cfg :: serverLoop false rest

/-- With `self.running` cleared, the `while self.running` test fails and no
further client is accepted, whoever is waiting. -/
theorem serverLoop_false (clients : List (List Nat)) : serverLoop false clients = [] := by
  cases clients <;> rfl

/-- Claim C4 (code bug): the handshake half of the claim holds — any number
of failed handshakes never terminates the accept loop, and a later valid
client is still served — but the streaming half fails: the `finally` block of
`stream_audio_from_client` clears `self.running` (server.py line 694), so
after one streamed session the `while self.running` loop exits and a waiting
valid client is never accepted, even though the code itself then prints
`Waiting for next client connection...` and recreates the pipe for that next
client: with any further client queued after the streamed session the loop
produces the same outcomes, and with `running` cleared no client at all is
served. -/
theorem c4_running_cleared_after_stream (bad : List (List Nat))
    (good extra : List Nat) (cfg : SessionConfig)
    (hbad : ∀ b ∈ bad, receive_audio_config b = none)
    (hgood : receive_audio_config good = some cfg) :
    serverLoop true (bad ++ [good]) = bad.map (fun _ => none) ++ [some cfg]
    ∧ serverLoop true (bad ++ good :: [extra])
        = bad.map (fun _ => none) ++ [some cfg]
    ∧ serverLoop false [extra] = [] := by
  have key : ∀ tail, serverLoop true (bad ++ good :: tail)
      = bad.map (fun _ => none) ++ [some cfg] := by
    intro tail
    induction bad with
    | nil =>
      show (match receive_audio_config good with
        | none => none :: serverLoop true tail
        | some cfg => some cfg :: serverLoop false tail) = [some cfg]
      rw [hgood, serverLoop_false tail]
    | cons b rest ih =>
      rw [List.cons_append]
      show (match receive_audio_config b with
        | none => none :: serverLoop true (rest ++ good :: tail)
        | some cfg => some cfg :: serverLoop false (rest ++ good :: tail))
        = (b :: rest).map (fun _ => none) ++ [some cfg]
      rw [hbad b (List.mem_cons_self _ _),
        ih (fun x hx => hbad x (List.mem_cons_of_mem _ hx))]
      rfl
  exact ⟨key [], key [extra], serverLoop_false [extra]⟩

theorem c4_running_cleared_after_stream_witness :
    serverLoop true ([strToBytes "HELLO\n"]
        ++ [strToBytes "CONFIG:44100:1:128:balanced\n"])
      = [strToBytes "HELLO\n"].map (fun _ => none)
        ++ [some ⟨44100, 1, 128, "balanced".data⟩]
    ∧ serverLoop true ([strToBytes "HELLO\n"]
        ++ strToBytes "CONFIG:44100:1:128:balanced\n"
          :: [strToBytes "CONFIG:48000:2:256:high_quality\n"])
        = [strToBytes "HELLO\n"].map (fun _ => none)
          ++ [some ⟨44100, 1, 128, "balanced".data⟩]
    ∧ serverLoop false [strToBytes "CONFIG:48000:2:256:high_quality\n"] = [] :=
  c4_running_cleared_after_stream [strToBytes "HELLO\n"]
    (strToBytes "CONFIG:44100:1:128:balanced\n")
    (strToBytes "CONFIG:48000:2:256:high_quality\n")
    ⟨44100, 1, 128, "balanced".data⟩
    (by
      intro b hb
      rw [List.mem_singleton.mp hb]
      decide)
    (by decide)

/-! ## Receiver frame assembly and normalization
Embeds the per-frame receive loop of `stream_audio_from_client` (server.py
lines 591-653) and the identical size validation of the sender
(client.py lines 224-232). -/

/-- `data_size = self.chunk_size * self.channels * 2` (server.py line 591,
client.py line 210). -/
def frameBytes (c : SessionConfig) : Int := c.chunk_size * c.channels * 2

/-- The size-validation block of `stream_audio_from_client` (server.py lines
644-653): pad short data with zero bytes, truncate oversized data. -/
def normalizeServer (n : Nat) (data : List Nat) : List Nat :=
  if data.length ≠ n then
    if data.length < n then data ++ List.replicate (n - data.length) 0
    else if data.length > n then data.take n
    else data
  else data

/-- The size-validation block of the sender's `stream_audio` (client.py lines
224-232): same padding and truncation before transmission. -/
def normalizeClient (n : Nat) (data : List Nat) : List Nat :=
  if data.length ≠ n then
    if data.length < n then data ++ List.replicate (n - data.length) 0
    else if data.length > n then data.take n
    else data
  else data

theorem normalizeServer_length (n : Nat) (data : List Nat) :
    (normalizeServer n data).length = n := by
  unfold normalizeServer
  split_ifs with h1 h2 h3
  · simp only [List.length_append, List.length_replicate]
    omega
  · simp only [List.length_take]
    omega
  · omega
  · omega

theorem normalizeServer_of_length (n : Nat) {data : List Nat}
    (h : data.length = n) : normalizeServer n data = data := by
  unfold normalizeServer
  rw [if_neg (by omega)]

/-- The receive loop (server.py lines 597-626) applied to the whole byte
stream the client sends before closing, delivering the validated frames in
order: each iteration accumulates exactly `n` bytes when the stream has them
(`recv` never returns more than requested); at end of stream, partial
accumulated bytes are padded with zeros and delivered as the final frame,
while an empty accumulation ends the session with no frame. -/
def recvFrames (n : Nat) (stream : List Nat) : List (List Nat) :=
  if hemp : stream.isEmpty then []
  else if hz : n = 0 then []
  else if hle : n ≤ stream.length then
    normalizeServer n (stream.take n) :: recvFrames n (stream.drop n)
  else
    [normalizeServer n (stream ++ List.replicate (n - stream.length) 0)]
termination_by stream.length
decreasing_by
  simp only [List.length_drop]
  omega

/-- The exact `n`-byte frames a stream of `q * n` or more bytes yields. -/
def exactChunks (n : Nat) : Nat → List Nat → List (List Nat)
  | 0, _ => []
  | q + 1, s => s.take n :: exactChunks n q (s.drop n)

theorem recvFrames_characterization (n : Nat) (hn : 0 < n) :
    ∀ (L : Nat) (stream : List Nat), stream.length = L →
      recvFrames n stream =
        if stream.length % n = 0 then exactChunks n (stream.length / n) stream
        else exactChunks n (stream.length / n) stream
          ++ [stream.drop (n * (stream.length / n))
              ++ List.replicate (n - stream.length % n) 0] := by
  intro L
  induction L using Nat.strong_induction_on with
  | _ L ih =>
    intro stream hL
    rw [recvFrames.eq_def]
    by_cases hemp : stream.isEmpty
    · rw [dif_pos hemp]
      have hnil : stream = [] := by
        cases stream with
        | nil => rfl
        | cons a l => exact absurd hemp (by simp)
      subst hnil
      simp [exactChunks]
    · rw [dif_neg hemp]
      have hpos : 0 < stream.length := by
        cases stream with
        | nil => exact absurd hemp (by simp)
        | cons a l => simp
      rw [dif_neg (by omega : ¬ n = 0)]
      by_cases hle : n ≤ stream.length
      · rw [dif_pos hle]
        have hdrop : (stream.drop n).length = stream.length - n := by simp
        rw [ih (L - n) (by omega) (stream.drop n) (by omega), hdrop]
        have hsub : stream.length - n + n = stream.length := by omega
        have hmod : stream.length % n = (stream.length - n) % n := by
          conv_lhs => rw [← hsub]
          rw [Nat.add_mod_right]
        have hdiv : stream.length / n = (stream.length - n) / n + 1 := by
          conv_lhs => rw [← hsub]
          rw [Nat.add_div_right _ hn]
        have htake : normalizeServer n (stream.take n) = stream.take n :=
          normalizeServer_of_length n (by simp only [List.length_take]; omega)
        have hdd : (stream.drop n).drop (n * ((stream.length - n) / n))
            = stream.drop (n * ((stream.length - n) / n + 1)) := by
          rw [List.drop_drop]
          congr 1
          ring
        rw [htake, hmod, hdiv,
          apply_ite (List.cons (stream.take n))]
        apply if_congr Iff.rfl
        · rfl
        · show stream.take n :: (exactChunks n ((stream.length - n) / n) (stream.drop n)
              ++ [(stream.drop n).drop (n * ((stream.length - n) / n))
                  ++ List.replicate (n - (stream.length - n) % n) 0])
            = exactChunks n ((stream.length - n) / n + 1) stream
              ++ [stream.drop (n * ((stream.length - n) / n + 1))
                  ++ List.replicate (n - (stream.length - n) % n) 0]
          rw [hdd,
            show exactChunks n ((stream.length - n) / n + 1) stream
                = stream.take n :: exactChunks n ((stream.length - n) / n) (stream.drop n)
              from rfl,
            List.cons_append]
      · rw [dif_neg hle]
        have hmod : stream.length % n = stream.length := Nat.mod_eq_of_lt (by omega)
        have hdiv : stream.length / n = 0 := Nat.div_eq_of_lt (by omega)
        rw [if_neg (by omega), hmod, hdiv]
        have hnorm : normalizeServer n (stream ++ List.replicate (n - stream.length) 0)
            = stream ++ List.replicate (n - stream.length) 0 :=
          normalizeServer_of_length n (by
            simp only [List.length_append, List.length_replicate]
            omega)
        rw [hnorm]
        show _ = [] ++ [stream.drop (n * 0) ++ List.replicate (n - stream.length) 0]
        rw [Nat.mul_zero, List.drop_zero, List.nil_append]

theorem recvFrames_frame_length (n : Nat) (hn : 0 < n) :
    ∀ (L : Nat) (stream : List Nat), stream.length = L →
      ∀ f ∈ recvFrames n stream, f.length = n := by
  intro L
  induction L using Nat.strong_induction_on with
  | _ L ih =>
    intro stream hL f hf
    rw [recvFrames.eq_def] at hf
    by_cases hemp : stream.isEmpty
    · rw [dif_pos hemp] at hf
      exact absurd hf (List.not_mem_nil f)
    · rw [dif_neg hemp, dif_neg (by omega : ¬ n = 0)] at hf
      have hpos : 0 < stream.length := by
        cases stream with
        | nil => exact absurd hemp (by simp)
        | cons a l => simp
      by_cases hle : n ≤ stream.length
      · rw [dif_pos hle] at hf
        rcases List.mem_cons.mp hf with hf | hf
        · rw [hf]
          exact normalizeServer_length n _
        · exact ih (L - n) (by omega) (stream.drop n) (by simp; omega) f hf
      · rw [dif_neg hle] at hf
        rw [List.mem_singleton.mp hf]
        exact normalizeServer_length n _

theorem frameBytes_pos {c : SessionConfig}
    (h1 : 64 ≤ c.chunk_size) (h2 : 1 ≤ c.channels) : 0 < frameBytes c := by
  unfold frameBytes
  have hc1 : 0 < c.chunk_size := by omega
  have hc2 : 0 < c.channels := by omega
  exact mul_pos (mul_pos hc1 hc2) (by norm_num)

/-- Claim C5: every frame the receiver delivers to the JitterBuffer is
exactly `frameBytes` long; a short chunk is padded with zero bytes to exactly
`frameBytes`, an oversized chunk is truncated to its first `frameBytes`
bytes, and the sender applies the identical normalization before
transmission. -/
theorem c5_frames_exact (c : SessionConfig) (stream d : List Nat)
    (h1 : 64 ≤ c.chunk_size) (h2 : 1 ≤ c.channels) :
    (∀ f ∈ recvFrames (frameBytes c).toNat stream, f.length = (frameBytes c).toNat)
    ∧ (d.length < (frameBytes c).toNat →
        normalizeServer (frameBytes c).toNat d
          = d ++ List.replicate ((frameBytes c).toNat - d.length) 0)
    ∧ ((frameBytes c).toNat < d.length →
        normalizeServer (frameBytes c).toNat d = d.take (frameBytes c).toNat)
    ∧ normalizeClient = normalizeServer := by
  have hpos : 0 < (frameBytes c).toNat := by
    have := frameBytes_pos h1 h2
    omega
  refine ⟨?_, ?_, ?_, rfl⟩
  · exact recvFrames_frame_length _ hpos stream.length stream rfl
  · intro hlt
    unfold normalizeServer
    rw [if_pos (by omega), if_pos hlt]
  · intro hgt
    unfold normalizeServer
    rw [if_pos (by omega), if_neg (by omega), if_pos hgt]

theorem c5_frames_exact_witness :
    (∀ f ∈ recvFrames (frameBytes ⟨44100, 1, 128, "balanced".data⟩).toNat [1, 2, 3],
        f.length = (frameBytes ⟨44100, 1, 128, "balanced".data⟩).toNat)
    ∧ (([7] : List Nat).length < (frameBytes ⟨44100, 1, 128, "balanced".data⟩).toNat →
        normalizeServer (frameBytes ⟨44100, 1, 128, "balanced".data⟩).toNat [7]
          = [7] ++ List.replicate
              ((frameBytes ⟨44100, 1, 128, "balanced".data⟩).toNat - ([7] : List Nat).length) 0)
    ∧ ((frameBytes ⟨44100, 1, 128, "balanced".data⟩).toNat < ([7] : List Nat).length →
        normalizeServer (frameBytes ⟨44100, 1, 128, "balanced".data⟩).toNat [7]
          = ([7] : List Nat).take (frameBytes ⟨44100, 1, 128, "balanced".data⟩).toNat)
    ∧ normalizeClient = normalizeServer :=
  c5_frames_exact ⟨44100, 1, 128, "balanced".data⟩ [1, 2, 3] [7]
    (by decide) (by decide)

/-- Claim C6: when the stream ends mid-frame (its length is not a multiple of
`frameBytes`), the receiver delivers the full frames followed by one final
frame made of the leftover bytes padded with zeros to exactly `frameBytes`;
when the stream ends on a frame boundary (a zero-length read with nothing
accumulated), it delivers exactly the full frames and no padded frame. -/
theorem c6_disconnect_mid_frame (c : SessionConfig) (stream : List Nat)
    (h1 : 64 ≤ c.chunk_size) (h2 : 1 ≤ c.channels) :
    (stream.length % (frameBytes c).toNat ≠ 0 →
      recvFrames (frameBytes c).toNat stream
        = exactChunks (frameBytes c).toNat
            (stream.length / (frameBytes c).toNat) stream
          ++ [stream.drop ((frameBytes c).toNat * (stream.length / (frameBytes c).toNat))
              ++ List.replicate
                  ((frameBytes c).toNat - stream.length % (frameBytes c).toNat) 0])
    ∧ (stream.length % (frameBytes c).toNat = 0 →
      recvFrames (frameBytes c).toNat stream
        = exactChunks (frameBytes c).toNat
            (stream.length / (frameBytes c).toNat) stream) := by
  have hpos : 0 < (frameBytes c).toNat := by
    have := frameBytes_pos h1 h2
    omega
  have hchar := recvFrames_characterization (frameBytes c).toNat hpos
    stream.length stream rfl
  constructor
  · intro hmod
    rw [hchar, if_neg hmod]
  · intro hmod
    rw [hchar, if_pos hmod]

theorem c6_disconnect_mid_frame_witness :
    (([1] : List Nat).length % (frameBytes ⟨44100, 1, 128, "balanced".data⟩).toNat ≠ 0 →
      recvFrames (frameBytes ⟨44100, 1, 128, "balanced".data⟩).toNat [1]
        = exactChunks (frameBytes ⟨44100, 1, 128, "balanced".data⟩).toNat
            (([1] : List Nat).length / (frameBytes ⟨44100, 1, 128, "balanced".data⟩).toNat) [1]
          ++ [([1] : List Nat).drop ((frameBytes ⟨44100, 1, 128, "balanced".data⟩).toNat
                * (([1] : List Nat).length / (frameBytes ⟨44100, 1, 128, "balanced".data⟩).toNat))
              ++ List.replicate ((frameBytes ⟨44100, 1, 128, "balanced".data⟩).toNat
                  - ([1] : List Nat).length % (frameBytes ⟨44100, 1, 128, "balanced".data⟩).toNat) 0])
    ∧ (([1] : List Nat).length % (frameBytes ⟨44100, 1, 128, "balanced".data⟩).toNat = 0 →
      recvFrames (frameBytes ⟨44100, 1, 128, "balanced".data⟩).toNat [1]
        = exactChunks (frameBytes ⟨44100, 1, 128, "balanced".data⟩).toNat
            (([1] : List Nat).length / (frameBytes ⟨44100, 1, 128, "balanced".data⟩).toNat) [1]) :=
  c6_disconnect_mid_frame ⟨44100, 1, 128, "balanced".data⟩ [1] (by decide) (by decide)


end YaP
